import Mathlib

/-!
Shallow embedding of the WebRTC signaling server in `src/webrtc.ts` of the
SyncLater repository, together with proofs of the specification's claims
about it.

Modelling conventions:
* A JavaScript `Map` is an association list in insertion order.  `Map.set`
  replaces the value of the first (unique) matching key in place, or appends
  a new entry at the end; `Map.delete` removes the entry; `Map.keys()`
  enumerates keys in insertion order.  These are `mapSet`, `mapDelete`,
  `mapGet` below.
* A WebSocket is identified by a natural number; whether its `readyState`
  is `OPEN` is given by an environment function `openS : Nat → Bool`.
* The observable output of a handler is the final room table paired with the
  ordered list of attempted sends `(socket, message)`; `send` is only
  performed on sockets whose `readyState` is `OPEN`, matching
  `sendToUser` / `broadcastToRoom` in the source.
* JavaScript truthiness on optional strings (`!roomId`) holds for both
  `undefined` and the empty string; this is `falsyStr`.
-/

namespace SyncLater

/-- A participant record of `webrtc.ts`: `{ userId, socket, metadata }`. -/
structure Participant where
  userId : String
  socket : Nat
  metadata : Option String
deriving Repr, DecidableEq

/-- A room: the JS `Map<string, RoomParticipant>` as an association list. -/
abbrev RoomMap := List (String × Participant)

/-- The room table: `Map<string, Map<string, RoomParticipant>>`. -/
abbrev Rooms := List (String × RoomMap)

/-- The inbound message type tag of `WebRTCMessage`; `other` covers any
unknown `type` string. -/
inductive MsgType where
  | joinRoom
  | offer
  | answer
  | iceCandidate
  | leaveRoom
  | other (s : String)
deriving Repr, DecidableEq

/-- The raw string of a message type, as it appears on the wire. -/
def MsgType.str : MsgType → String
  | .joinRoom => "join-room"
  | .offer => "offer"
  | .answer => "answer"
  | .iceCandidate => "ice-candidate"
  | .leaveRoom => "leave-room"
  | .other s => s

/-- An inbound `WebRTCMessage` envelope: all of `roomId`, `data`, `userId`
are optional. The opaque `data` payload is modelled as an optional string. -/
structure WebRTCMessage where
  type : MsgType
  roomId : Option String := none
  data : Option String := none
  userId : Option String := none
deriving Repr, DecidableEq

/-- Outbound messages the server sends, with the fields the source puts in
each one. -/
inductive OutMsg where
  | userJoined (userId : String) (participantCount : Nat)
  | joinedRoom (roomId : String) (participantCount : Nat) (participants : List String)
  | userLeft (userId : String) (participantCount : Nat)
  | offer (data : Option String)
  | answer (data : Option String)
  | iceCandidate (data : Option String)
  | error (message : String)
deriving Repr, DecidableEq

/-- A send attempt: target socket and message. -/
abbrev Send := Nat × OutMsg

/-- JavaScript truthiness test on an optional string: `undefined` and `""`
are falsy. -/
def falsyStr : Option String → Bool
  | none => true
  | some s => s == ""

/-- `Map.get`: the value at the first matching key, if any. -/
def mapGet {α : Type} : List (String × α) → String → Option α
  | [], _ => none
  | (k, v) :: rest, key => if k == key then some v else mapGet rest key

/-- `Map.has`. -/
def mapHas {α : Type} (m : List (String × α)) (key : String) : Bool :=
  (mapGet m key).isSome

/-- `Map.set`: replace the value at the first matching key in place, else
append a new entry at the end (JS `Map` insertion-order semantics). -/
def mapSet {α : Type} : List (String × α) → String → α → List (String × α)
  | [], key, v => [(key, v)]
  | (k, w) :: rest, key, v =>
      if k == key then (key, v) :: rest else (k, w) :: mapSet rest key v

/-- `Map.delete`: remove the entry at the first matching key. -/
def mapDelete {α : Type} : List (String × α) → String → List (String × α)
  | [], _ => []
  | (k, w) :: rest, key =>
      if k == key then rest else (k, w) :: mapDelete rest key

/-- `sendToUser`: send only when the socket is `OPEN`. -/
def sendToUser (openS : Nat → Bool) (socket : Nat) (msg : OutMsg) : List Send :=
  if openS socket then [(socket, msg)] else []

/-- `sendError`: an `error{message}` reply through `sendToUser`. -/
def sendError (openS : Nat → Bool) (socket : Nat) (msg : String) : List Send :=
  sendToUser openS socket (.error msg)

/-- `broadcastToRoom`: send `msg` to every participant of the room whose
userId is not excluded and whose socket is open; no room means no sends. -/
def broadcastToRoom (openS : Nat → Bool) (rooms : Rooms) (roomId : String)
    (msg : OutMsg) (excludeUserIds : List String) : List Send :=
  match mapGet rooms roomId with
  | none => []
  | some room =>
      (room.filter
        (fun q => !(excludeUserIds.contains q.1) && openS q.2.socket)).map
        (fun q => (q.2.socket, msg))

/-- The first userId in a room whose participant holds the given socket —
the inner loop of `getUserIdBySocket`. -/
def findInRoom : RoomMap → Nat → Option String
  | [], _ => none
  | (uid, p) :: rest, sock =>
      if p.socket == sock then some uid else findInRoom rest sock

/-- `getUserIdBySocket`: scan all rooms in order for the socket; return the
first matching userId, or the empty string when the socket is in no room. -/
def getUserIdBySocket (rooms : Rooms) (sock : Nat) : String :=
  match rooms with
  | [] => ""
  | (_, room) :: rest =>
      match findInRoom room sock with
      | some uid => uid
      | none => getUserIdBySocket rest sock

/-- `handleJoinRoom`: validate `roomId`/`userId`, create the room if absent,
insert the participant keyed by userId, broadcast `user-joined` to the
others, and confirm with `joined-room` to the joiner. -/
def handleJoinRoom (openS : Nat → Bool) (rooms : Rooms) (socket : Nat)
    (message : WebRTCMessage) : Rooms × List Send :=
  if falsyStr message.roomId || falsyStr message.userId then
    (rooms, sendError openS socket "Room ID and User ID are required")
  else
    let roomId := message.roomId.getD ""
    let userId := message.userId.getD ""
    let rooms1 := if mapHas rooms roomId then rooms else mapSet rooms roomId []
    let room := (mapGet rooms1 roomId).getD []
    let participant : Participant := ⟨userId, socket, message.data⟩
    let rooms2 := mapSet rooms1 roomId (mapSet room userId participant)
    let newRoom := (mapGet rooms2 roomId).getD []
    let sends1 := broadcastToRoom openS rooms2 roomId
      (.userJoined userId newRoom.length) [userId]
    let sends2 := sendToUser openS socket
      (.joinedRoom roomId newRoom.length
        ((newRoom.map Prod.fst).filter (fun id => id != userId)))
    (rooms2, sends1 ++ sends2)

/-- `handleOffer`: require `roomId`; broadcast the offer to the room
excluding the sender's reverse-looked-up userId. -/
def handleOffer (openS : Nat → Bool) (rooms : Rooms) (socket : Nat)
    (message : WebRTCMessage) : Rooms × List Send :=
  if falsyStr message.roomId then
    (rooms, sendError openS socket "Room ID is required")
  else
    (rooms, broadcastToRoom openS rooms (message.roomId.getD "")
      (.offer message.data) [getUserIdBySocket rooms socket])

/-- `handleAnswer`: same shape as `handleOffer`. -/
def handleAnswer (openS : Nat → Bool) (rooms : Rooms) (socket : Nat)
    (message : WebRTCMessage) : Rooms × List Send :=
  if falsyStr message.roomId then
    (rooms, sendError openS socket "Room ID is required")
  else
    (rooms, broadcastToRoom openS rooms (message.roomId.getD "")
      (.answer message.data) [getUserIdBySocket rooms socket])

/-- `handleIceCandidate`: same shape as `handleOffer`. -/
def handleIceCandidate (openS : Nat → Bool) (rooms : Rooms) (socket : Nat)
    (message : WebRTCMessage) : Rooms × List Send :=
  if falsyStr message.roomId then
    (rooms, sendError openS socket "Room ID is required")
  else
    (rooms, broadcastToRoom openS rooms (message.roomId.getD "")
      (.iceCandidate message.data) [getUserIdBySocket rooms socket])

/-- `removeUserFromRoom`: silently return when `roomId` is falsy or the room
is absent; otherwise delete the participant, broadcast `user-left` with the
new size, and delete the room when it became empty. -/
def removeUserFromRoom (openS : Nat → Bool) (rooms : Rooms)
    (roomId : Option String) (userId : String) (_socket : Nat) :
    Rooms × List Send :=
  if falsyStr roomId then (rooms, [])
  else
    let rid := roomId.getD ""
    match mapGet rooms rid with
    | none => (rooms, [])
    | some room =>
        let room1 := mapDelete room userId
        let rooms1 := mapSet rooms rid room1
        let sends := broadcastToRoom openS rooms1 rid
          (.userLeft userId room1.length) [userId]
        let rooms2 := if room1.length == 0 then mapDelete rooms1 rid else rooms1
        (rooms2, sends)

/-- `handleLeaveRoom`: remove using the message's userId when truthy, else
the sender's reverse-looked-up userId. -/
def handleLeaveRoom (openS : Nat → Bool) (rooms : Rooms) (socket : Nat)
    (message : WebRTCMessage) : Rooms × List Send :=
  removeUserFromRoom openS rooms message.roomId
    (if falsyStr message.userId then getUserIdBySocket rooms socket
     else message.userId.getD "")
    socket

/-- The outer loop of `handleDisconnection`: iterate a snapshot of the room
table; in each room, remove the first participant holding the socket (the
inner loop breaks after the first match). -/
def disconnectScan (openS : Nat → Bool) (sock : Nat) :
    Rooms → Rooms → Rooms × List Send
  | [], current => (current, [])
  | (rid, room) :: rest, current =>
      match findInRoom room sock with
      | some uid =>
          let r1 := removeUserFromRoom openS current (some rid) uid sock
          let r2 := disconnectScan openS sock rest r1.1
          (r2.1, r1.2 ++ r2.2)
      | none => disconnectScan openS sock rest current

/-- `handleDisconnection`: find and remove the closed socket from all rooms. -/
def handleDisconnection (openS : Nat → Bool) (rooms : Rooms) (sock : Nat) :
    Rooms × List Send :=
  disconnectScan openS sock rooms rooms

/-- `handleMessage`: dispatch on the message type; unknown types get an
error reply and no other effect. -/
def handleMessage (openS : Nat → Bool) (rooms : Rooms) (socket : Nat)
    (message : WebRTCMessage) : Rooms × List Send :=
  match message.type with
  | .joinRoom => handleJoinRoom openS rooms socket message
  | .offer => handleOffer openS rooms socket message
  | .answer => handleAnswer openS rooms socket message
  | .iceCandidate => handleIceCandidate openS rooms socket message
  | .leaveRoom => handleLeaveRoom openS rooms socket message
  | .other s => (rooms, sendError openS socket ("Unknown message type: " ++ s))

/-- The result shape of the `getRoomInfo` query. -/
structure RoomInfo where
  exists_ : Bool
  participantCount : Nat
  participants : List String
deriving Repr, DecidableEq

/-- `getRoomInfo`: read-only diagnostics query over the room table. -/
def getRoomInfo (rooms : Rooms) (roomId : String) : RoomInfo :=
  match mapGet rooms roomId with
  | none => ⟨false, 0, []⟩
  | some room => ⟨true, room.length, room.map Prod.fst⟩

/-- States of the room table reachable from the empty table by any sequence
of inbound messages and transport closes, under arbitrary socket-open
environments. -/
inductive Reachable : Rooms → Prop where
  | init : Reachable []
  | msg (openS : Nat → Bool) (sock : Nat) (m : WebRTCMessage) {s : Rooms} :
      Reachable s → Reachable (handleMessage openS s sock m).1
  | close (openS : Nat → Bool) (sock : Nat) {s : Rooms} :
      Reachable s → Reachable (handleDisconnection openS s sock).1

/-! ### Association-map lemmas -/

theorem mapGet_eq_none_iff {α : Type} {m : List (String × α)} {k : String} :
    mapGet m k = none ↔ k ∉ m.map Prod.fst := by
  induction m with
  | nil => simp [mapGet]
  | cons a rest ih =>
    obtain ⟨ka, va⟩ := a
    simp only [mapGet, List.map_cons, List.mem_cons]
    by_cases h : ka = k
    · simp [h]
    · simp [h, ih, Ne.symm h]

theorem mapGet_mem {α : Type} {m : List (String × α)} {k : String} {v : α}
    (h : mapGet m k = some v) : (k, v) ∈ m := by
  induction m with
  | nil => simp [mapGet] at h
  | cons a rest ih =>
    obtain ⟨ka, va⟩ := a
    simp only [mapGet] at h
    by_cases hk : ka = k
    · simp [hk] at h
      simp [hk, h]
    · simp [hk] at h
      exact List.mem_cons_of_mem _ (ih h)

theorem mapSet_ne_nil {α : Type} {m : List (String × α)} {k : String} {v : α} :
    mapSet m k v ≠ [] := by
  cases m with
  | nil => simp [mapSet]
  | cons a rest =>
    obtain ⟨ka, va⟩ := a
    simp only [mapSet]
    split <;> simp

theorem mem_mapSet {α : Type} {m : List (String × α)} {k : String} {v : α}
    {p : String × α} (h : p ∈ mapSet m k v) : p = (k, v) ∨ p ∈ m := by
  induction m with
  | nil => simp [mapSet] at h; simp [h]
  | cons a rest ih =>
    obtain ⟨ka, va⟩ := a
    simp only [mapSet] at h
    by_cases hk : ka = k
    · simp [hk] at h
      rcases h with h | h
      · exact Or.inl h
      · exact Or.inr (List.mem_cons_of_mem _ h)
    · simp [hk, List.mem_cons] at h
      rcases h with h | h
      · exact Or.inr (by simp [h])
      · rcases ih h with h1 | h1
        · exact Or.inl h1
        · exact Or.inr (List.mem_cons_of_mem _ h1)

theorem mapSet_of_get_none {α : Type} {m : List (String × α)} {k : String}
    {v : α} (h : mapGet m k = none) : mapSet m k v = m ++ [(k, v)] := by
  induction m with
  | nil => simp [mapSet]
  | cons a rest ih =>
    obtain ⟨ka, va⟩ := a
    simp only [mapGet] at h
    by_cases hk : ka = k
    · simp [hk] at h
    · simp only [mapSet, List.cons_append]
      simp [hk] at h ⊢
      exact ih h

theorem mapSet_append_of_get_none {α : Type} {m l : List (String × α)}
    {k : String} {v : α} (h : mapGet m k = none) :
    mapSet (m ++ l) k v = m ++ mapSet l k v := by
  induction m with
  | nil => simp
  | cons a rest ih =>
    obtain ⟨ka, va⟩ := a
    simp only [mapGet] at h
    by_cases hk : ka = k
    · simp [hk] at h
    · simp only [List.cons_append, mapSet]
      simp [hk] at h ⊢
      exact ih h

theorem mapGet_mapSet_self {α : Type} {m : List (String × α)} {k : String}
    {v : α} : mapGet (mapSet m k v) k = some v := by
  induction m with
  | nil => simp [mapSet, mapGet]
  | cons a rest ih =>
    obtain ⟨ka, va⟩ := a
    simp only [mapSet]
    by_cases hk : ka = k
    · simp [hk, mapGet]
    · simp [hk, mapGet, ih]

theorem mapDelete_mapSet {α : Type} {m : List (String × α)} {k : String}
    {v : α} : mapDelete (mapSet m k v) k = mapDelete m k := by
  induction m with
  | nil => simp [mapSet, mapDelete]
  | cons a rest ih =>
    obtain ⟨ka, va⟩ := a
    simp only [mapSet, mapDelete]
    by_cases hk : ka = k
    · simp [hk, mapDelete]
    · simp [hk, mapDelete, ih]

theorem mem_mapDelete {α : Type} {m : List (String × α)} {k : String}
    {p : String × α} (h : p ∈ mapDelete m k) : p ∈ m := by
  induction m with
  | nil => simp [mapDelete] at h
  | cons a rest ih =>
    obtain ⟨ka, va⟩ := a
    simp only [mapDelete] at h
    by_cases hk : ka = k
    · simp [hk] at h
      exact List.mem_cons_of_mem _ h
    · simp [hk, List.mem_cons] at h
      rcases h with h | h
      · simp [h]
      · exact List.mem_cons_of_mem _ (ih h)

theorem mapDelete_of_get_none {α : Type} {m : List (String × α)} {k : String}
    (h : mapGet m k = none) : mapDelete m k = m := by
  induction m with
  | nil => simp [mapDelete]
  | cons a rest ih =>
    obtain ⟨ka, va⟩ := a
    simp only [mapGet] at h
    by_cases hk : ka = k
    · simp [hk] at h
    · simp only [mapDelete]
      simp [hk] at h ⊢
      exact ih h

theorem mapSet_of_get_some {α : Type} {m : List (String × α)} {k : String}
    {v : α} (h : mapGet m k = some v) : mapSet m k v = m := by
  induction m with
  | nil => simp [mapGet] at h
  | cons a rest ih =>
    obtain ⟨ka, va⟩ := a
    simp only [mapGet] at h
    simp only [mapSet]
    by_cases hk : ka = k
    · simp [hk] at h
      simp [hk, h]
    · simp [hk] at h ⊢
      exact ih h

theorem length_mapSet_of_get_some {α : Type} {m : List (String × α)}
    {k : String} {v w : α} (h : mapGet m k = some w) :
    (mapSet m k v).length = m.length := by
  induction m with
  | nil => simp [mapGet] at h
  | cons a rest ih =>
    obtain ⟨ka, va⟩ := a
    simp only [mapGet] at h
    simp only [mapSet]
    by_cases hk : ka = k
    · simp [hk]
    · simp [hk] at h ⊢
      exact ih h

theorem mapDelete_of_not_mem_keys {α : Type} {m : List (String × α)}
    {k : String} (h : k ∉ m.map Prod.fst) : mapDelete m k = m :=
  mapDelete_of_get_none (mapGet_eq_none_iff.mpr h)

theorem mapSet_mapSet {α : Type} {m : List (String × α)} {k : String}
    {v w : α} : mapSet (mapSet m k v) k w = mapSet m k w := by
  induction m with
  | nil => simp [mapSet]
  | cons a rest ih =>
    obtain ⟨ka, va⟩ := a
    simp only [mapSet]
    by_cases hk : ka = k
    · simp [hk, mapSet]
    · simp [hk, mapSet, ih]

theorem mem_mapSet_nodup {α : Type} {m : List (String × α)} {k : String}
    {v : α} {p : String × α} (hn : (m.map Prod.fst).Nodup)
    (h : p ∈ mapSet m k v) : p = (k, v) ∨ (p ∈ m ∧ p.1 ≠ k) := by
  induction m with
  | nil => simp [mapSet] at h; simp [h]
  | cons a rest ih =>
    obtain ⟨ka, va⟩ := a
    simp only [List.map_cons, List.nodup_cons] at hn
    simp only [mapSet] at h
    by_cases hk : ka = k
    · subst hk
      simp only [beq_self_eq_true, if_true, List.mem_cons] at h
      rcases h with h | h
      · exact Or.inl h
      · refine Or.inr ⟨List.mem_cons_of_mem _ h, ?_⟩
        intro hq
        exact hn.1 (hq ▸ List.mem_map_of_mem Prod.fst h)
    · simp [hk, List.mem_cons] at h
      rcases h with h | h
      · exact Or.inr ⟨by simp [h], by simp [h, hk]⟩
      · rcases ih hn.2 h with h1 | h1
        · exact Or.inl h1
        · exact Or.inr ⟨List.mem_cons_of_mem _ h1.1, h1.2⟩

theorem not_mem_keys_mapDelete {α : Type} {m : List (String × α)}
    {k : String} (hn : (m.map Prod.fst).Nodup) :
    k ∉ (mapDelete m k).map Prod.fst := by
  induction m with
  | nil => simp [mapDelete]
  | cons a rest ih =>
    obtain ⟨ka, va⟩ := a
    simp only [List.map_cons, List.nodup_cons] at hn
    simp only [mapDelete]
    by_cases hk : ka = k
    · subst hk
      simp only [beq_self_eq_true, if_true]
      exact hn.1
    · have hb : (ka == k) = false := by simp [hk]
      rw [hb]
      simp only [Bool.false_eq_true, if_false, List.map_cons, List.mem_cons]
      push_neg
      exact ⟨fun hq => hk hq.symm, ih hn.2⟩

theorem mapGet_mapDelete_self_nodup {α : Type} {m : List (String × α)}
    {k : String} (hn : (m.map Prod.fst).Nodup) :
    mapGet (mapDelete m k) k = none :=
  mapGet_eq_none_iff.mpr (not_mem_keys_mapDelete hn)

theorem mapGet_split {α : Type} {m : List (String × α)} {k : String} {v : α}
    (h : mapGet m k = some v) :
    ∃ pre post, m = pre ++ (k, v) :: post ∧ ∀ p ∈ pre, p.1 ≠ k := by
  induction m with
  | nil => simp [mapGet] at h
  | cons a rest ih =>
    obtain ⟨ka, va⟩ := a
    simp only [mapGet] at h
    by_cases hk : ka = k
    · subst hk
      simp only [beq_self_eq_true, if_true, Option.some.injEq] at h
      exact ⟨[], rest, by simp [h], by simp⟩
    · simp [hk] at h
      obtain ⟨pre, post, heq, hpre⟩ := ih h
      refine ⟨(ka, va) :: pre, post, by simp [heq], ?_⟩
      intro p hp
      rcases List.mem_cons.mp hp with hp | hp
      · simp [hp, hk]
      · exact hpre p hp

/-! ### Lemmas about socket reverse lookup -/

theorem findInRoom_eq_none_iff {room : RoomMap} {sock : Nat} :
    findInRoom room sock = none ↔ ∀ q ∈ room, q.2.socket ≠ sock := by
  induction room with
  | nil => simp [findInRoom]
  | cons a rest ih =>
    obtain ⟨ka, pa⟩ := a
    simp only [findInRoom]
    by_cases hs : pa.socket = sock
    · simp [hs]
    · simp [hs, ih]

theorem findInRoom_some_mem {room : RoomMap} {sock : Nat} {uid : String}
    (h : findInRoom room sock = some uid) :
    ∃ p, (uid, p) ∈ room ∧ p.socket = sock := by
  induction room with
  | nil => simp [findInRoom] at h
  | cons a rest ih =>
    obtain ⟨ka, pa⟩ := a
    simp only [findInRoom] at h
    by_cases hs : pa.socket = sock
    · simp [hs] at h
      exact ⟨pa, by simp [h], hs⟩
    · simp [hs] at h
      obtain ⟨p, hp, hps⟩ := ih h
      exact ⟨p, List.mem_cons_of_mem _ hp, hps⟩

theorem findInRoom_eq_some {room : RoomMap} {sock : Nat} {U : String}
    (hall : ∀ q ∈ room, q.2.socket = sock → q.1 = U)
    (hex : ∃ p, (U, p) ∈ room ∧ p.socket = sock) :
    findInRoom room sock = some U := by
  induction room with
  | nil => obtain ⟨p, hp, _⟩ := hex; simp at hp
  | cons a rest ih =>
    obtain ⟨ka, pa⟩ := a
    simp only [findInRoom]
    by_cases hs : pa.socket = sock
    · simp [hs]
      exact hall (ka, pa) (by simp) hs
    · have hb : (pa.socket == sock) = false := by simp [hs]
      rw [hb]
      simp only [Bool.false_eq_true, if_false]
      obtain ⟨p, hp, hps⟩ := hex
      rcases List.mem_cons.mp hp with hp | hp
      · simp only [Prod.mk.injEq] at hp
        rw [hp.2] at hps
        exact absurd hps hs
      · refine ih ?_ ⟨p, hp, hps⟩
        intro q hq hqs
        exact hall q (List.mem_cons_of_mem _ hq) hqs

/-- The socket occurs, if at all, only as room `R`'s participant `U`. -/
def socketOnlyIn (rooms : Rooms) (sock : Nat) (R U : String) : Prop :=
  ∀ p ∈ rooms, ∀ q ∈ p.2, q.2.socket = sock → p.1 = R ∧ q.1 = U

instance (rooms : Rooms) (sock : Nat) (R U : String) :
    Decidable (socketOnlyIn rooms sock R U) := by
  unfold socketOnlyIn; infer_instance

theorem handleJoinRoom_state (openS : Nat → Bool) (rooms : Rooms)
    (socket : Nat) (message : WebRTCMessage)
    (h : (falsyStr message.roomId || falsyStr message.userId) = false) :
    (handleJoinRoom openS rooms socket message).1 =
      mapSet rooms (message.roomId.getD "")
        (mapSet ((mapGet rooms (message.roomId.getD "")).getD [])
          (message.userId.getD "")
          ⟨message.userId.getD "", socket, message.data⟩) := by
  unfold handleJoinRoom
  cases hg : mapGet rooms (message.roomId.getD "") with
  | some room => simp [h, mapHas, hg]
  | none =>
    simp [h, mapHas, hg, mapGet_mapSet_self, mapSet_mapSet]

theorem removeUserFromRoom_state (openS : Nat → Bool) (rooms : Rooms)
    (roomId : Option String) (userId : String) (socket : Nat) :
    (removeUserFromRoom openS rooms roomId userId socket).1 =
      if falsyStr roomId then rooms
      else
        match mapGet rooms (roomId.getD "") with
        | none => rooms
        | some room =>
            if (mapDelete room userId).length == 0 then
              mapDelete rooms (roomId.getD "")
            else mapSet rooms (roomId.getD "") (mapDelete room userId) := by
  unfold removeUserFromRoom
  cases hf : falsyStr roomId with
  | true => simp
  | false =>
    simp only [Bool.false_eq_true, if_false]
    cases hg : mapGet rooms (roomId.getD "") with
    | none => simp
    | some room =>
      by_cases hl : (mapDelete room userId).length = 0
      · simp [hl, mapDelete_mapSet]
      · simp [hl]

theorem handleOffer_state (openS : Nat → Bool) (rooms : Rooms) (socket : Nat)
    (message : WebRTCMessage) :
    (handleOffer openS rooms socket message).1 = rooms := by
  unfold handleOffer; split <;> rfl

theorem handleAnswer_state (openS : Nat → Bool) (rooms : Rooms) (socket : Nat)
    (message : WebRTCMessage) :
    (handleAnswer openS rooms socket message).1 = rooms := by
  unfold handleAnswer; split <;> rfl

theorem handleIceCandidate_state (openS : Nat → Bool) (rooms : Rooms)
    (socket : Nat) (message : WebRTCMessage) :
    (handleIceCandidate openS rooms socket message).1 = rooms := by
  unfold handleIceCandidate; split <;> rfl

theorem disconnectScan_no_match (openS : Nat → Bool) (sock : Nat)
    (snapshot current : Rooms)
    (h : ∀ p ∈ snapshot, findInRoom p.2 sock = none) :
    disconnectScan openS sock snapshot current = (current, []) := by
  induction snapshot with
  | nil => rfl
  | cons a rest ih =>
    obtain ⟨rid, room⟩ := a
    have ha := h (rid, room) (by simp)
    simp only [disconnectScan, ha]
    exact ih fun p hp => h p (List.mem_cons_of_mem _ hp)

theorem disconnectScan_skip (openS : Nat → Bool) (sock : Nat)
    (l rest current : Rooms) (h : ∀ p ∈ l, findInRoom p.2 sock = none) :
    disconnectScan openS sock (l ++ rest) current =
      disconnectScan openS sock rest current := by
  induction l with
  | nil => rfl
  | cons a tail ih =>
    obtain ⟨rid, room⟩ := a
    have ha := h (rid, room) (by simp)
    simp only [List.cons_append, disconnectScan, ha]
    exact ih fun p hp => h p (List.mem_cons_of_mem _ hp)

/-! ### The no-empty-rooms invariant -/

/-- No room in the table has an empty participant set. -/
def tableWF (rooms : Rooms) : Prop := ∀ p ∈ rooms, p.2 ≠ []

theorem tableWF_mapSet_room {rooms : Rooms} {R : String} {room : RoomMap}
    (h : tableWF rooms) (hne : room ≠ []) : tableWF (mapSet rooms R room) := by
  intro p hp
  rcases mem_mapSet hp with hp | hp
  · rw [hp]; exact hne
  · exact h p hp

theorem tableWF_remove (openS : Nat → Bool) (rooms : Rooms)
    (roomId : Option String) (userId : String) (socket : Nat)
    (h : tableWF rooms) :
    tableWF (removeUserFromRoom openS rooms roomId userId socket).1 := by
  rw [removeUserFromRoom_state]
  split
  · exact h
  · split
    · exact h
    · split
      · exact fun p hp => h p (mem_mapDelete hp)
      · rename_i room hl
        refine tableWF_mapSet_room h fun hnil => ?_
        simp [hnil] at hl

theorem tableWF_join (openS : Nat → Bool) (rooms : Rooms) (socket : Nat)
    (message : WebRTCMessage) (h : tableWF rooms) :
    tableWF (handleJoinRoom openS rooms socket message).1 := by
  cases hf : (falsyStr message.roomId || falsyStr message.userId) with
  | true =>
    unfold handleJoinRoom
    simp only [hf, if_true]
    exact h
  | false =>
    rw [handleJoinRoom_state _ _ _ _ hf]
    exact tableWF_mapSet_room h mapSet_ne_nil

theorem tableWF_scan (openS : Nat → Bool) (sock : Nat) :
    ∀ snapshot current : Rooms, tableWF current →
      tableWF (disconnectScan openS sock snapshot current).1 := by
  intro snapshot
  induction snapshot with
  | nil => exact fun current h => h
  | cons a rest ih =>
    intro current h
    obtain ⟨rid, room⟩ := a
    cases hf : findInRoom room sock with
    | some uid =>
      simp only [disconnectScan, hf]
      exact ih _ (tableWF_remove _ _ _ _ _ h)
    | none =>
      simp only [disconnectScan, hf]
      exact ih current h

theorem tableWF_message (openS : Nat → Bool) (rooms : Rooms) (socket : Nat)
    (message : WebRTCMessage) (h : tableWF rooms) :
    tableWF (handleMessage openS rooms socket message).1 := by
  unfold handleMessage
  cases message.type with
  | joinRoom => exact tableWF_join _ _ _ _ h
  | offer => rw [handleOffer_state]; exact h
  | answer => rw [handleAnswer_state]; exact h
  | iceCandidate => rw [handleIceCandidate_state]; exact h
  | leaveRoom => exact tableWF_remove _ _ _ _ _ h
  | other s => exact h

theorem tableWF_reachable {s : Rooms} (h : Reachable s) : tableWF s := by
  induction h with
  | init => intro p hp; simp at hp
  | msg openS sock m _ ih => exact tableWF_message _ _ _ _ ih
  | close openS sock _ ih => exact tableWF_scan _ _ _ _ ih

theorem getUserIdBySocket_eq_empty {rooms : Rooms} {sock : Nat}
    (h : ∀ p ∈ rooms, ∀ q ∈ p.2, q.2.socket ≠ sock) :
    getUserIdBySocket rooms sock = "" := by
  induction rooms with
  | nil => simp [getUserIdBySocket]
  | cons a rest ih =>
    obtain ⟨rid, room⟩ := a
    simp only [getUserIdBySocket]
    cases hf : findInRoom room sock with
    | some uid =>
      obtain ⟨p, hp, hps⟩ := findInRoom_some_mem hf
      exact absurd hps (h (rid, room) (by simp) (uid, p) hp)
    | none =>
      exact ih fun p hp q hq => h p (List.mem_cons_of_mem _ hp) q hq

/-! ### Claim theorems -/

/-- C9: for every roomId, `getRoomInfo` returns `{exists:false,
participantCount:0, participants:[]}` when the room is not in the table and
`{exists:true, participantCount: size, participants: member ids}` when it
is; being a pure function of the table, the query mutates nothing. -/
theorem getRoomInfo_spec (rooms : Rooms) (roomId : String) :
    (mapGet rooms roomId = none →
      getRoomInfo rooms roomId = ⟨false, 0, []⟩) ∧
    ∀ room, mapGet rooms roomId = some room →
      getRoomInfo rooms roomId = ⟨true, room.length, room.map Prod.fst⟩ := by
  constructor
  · intro h; simp [getRoomInfo, h]
  · intro room h; simp [getRoomInfo, h]

theorem getRoomInfo_spec_witness :
    getRoomInfo [] "r1" = ⟨false, 0, []⟩ ∧
    getRoomInfo [("r1", [("alice", ⟨"alice", 1, none⟩)])] "r1" =
      ⟨true, 1, ["alice"]⟩ :=
  ⟨(getRoomInfo_spec [] "r1").1 rfl,
   by exact (getRoomInfo_spec [("r1", [("alice", ⟨"alice", 1, none⟩)])]
       "r1").2 [("alice", ⟨"alice", 1, none⟩)] (by decide)⟩

/-- C7: a join-room whose roomId or userId is absent or empty gets only an
error reply to the sender and causes no room mutation: the table is
returned unchanged and the send list is exactly the error reply. -/
theorem handleJoinRoom_missing_fields (openS : Nat → Bool) (rooms : Rooms)
    (socket : Nat) (message : WebRTCMessage)
    (h : (falsyStr message.roomId || falsyStr message.userId) = true) :
    handleJoinRoom openS rooms socket message =
      (rooms, sendError openS socket "Room ID and User ID are required") := by
  unfold handleJoinRoom
  simp [h]

theorem handleJoinRoom_missing_fields_witness :
    handleJoinRoom (fun _ => true) [] 1 ⟨.joinRoom, none, none, some "u"⟩ =
      ([], [(1, OutMsg.error "Room ID and User ID are required")]) := by
  rw [handleJoinRoom_missing_fields _ _ _ _ (by decide)]
  rfl

/-- C5 counterexample: a leave-room with `roomId` absent from an open
sender produces NO reply at all — the send list is empty, not an error —
contradicting the claim that the server replies with an error. The table
is unchanged. -/
theorem leaveRoom_missing_roomId_counterexample :
    handleLeaveRoom (fun _ => true) [("r1", [("bob", ⟨"bob", 2, none⟩)])] 2
      ⟨.leaveRoom, none, none, none⟩ =
      ([("r1", [("bob", ⟨"bob", 2, none⟩)])], []) := by decide

/-- C5 amended: a leave-room whose roomId is absent (or empty) is silently
ignored: no reply of any kind is sent and no state mutation occurs. -/
theorem handleLeaveRoom_missing_roomId (openS : Nat → Bool) (rooms : Rooms)
    (socket : Nat) (message : WebRTCMessage)
    (h : falsyStr message.roomId = true) :
    handleLeaveRoom openS rooms socket message = (rooms, []) := by
  unfold handleLeaveRoom removeUserFromRoom
  simp [h]

theorem handleLeaveRoom_missing_roomId_witness :
    handleLeaveRoom (fun _ => true) [] 3 ⟨.leaveRoom, none, none, some "u"⟩ =
      ([], []) :=
  handleLeaveRoom_missing_roomId _ _ _ _ (by decide)

/-- C1 counterexample: with room "r1" holding only bob, a stray leave-room
for the already-removed "alice" still broadcasts
`user-left{userId:"alice", participantCount:1}` to bob, contradicting the
claim that no broadcast is produced. (The table is unchanged and no error
is sent.) -/
theorem leaveRoom_removed_counterexample :
    ("alice" ∉ ([("bob", ⟨"bob", 2, none⟩)] : RoomMap).map Prod.fst) ∧
    handleLeaveRoom (fun _ => true) [("r1", [("bob", ⟨"bob", 2, none⟩)])] 1
      ⟨.leaveRoom, some "r1", none, some "alice"⟩ =
      ([("r1", [("bob", ⟨"bob", 2, none⟩)])],
        [(2, OutMsg.userLeft "alice" 1)]) := by decide

/-- C1 amended: a leave-room for an already-removed participant never sends
an error and leaves the table unchanged; it produces no message at all when
the participant's room is no longer in the table, but when the room still
exists (other members remain) a `user-left` broadcast carrying the stale
userId and the current member count is sent to every remaining open
member. A close-triggered removal for a socket no longer in any room
remains a full no-op. -/
theorem handleLeaveRoom_removed (openS : Nat → Bool) (rooms : Rooms)
    (socket : Nat) (R U : String) (d : Option String)
    (hR : R ≠ "") (hU : U ≠ "") :
    (mapGet rooms R = none →
      handleLeaveRoom openS rooms socket ⟨.leaveRoom, some R, d, some U⟩ =
        (rooms, [])) ∧
    (∀ room : RoomMap, mapGet rooms R = some room → U ∉ room.map Prod.fst →
      room ≠ [] →
      handleLeaveRoom openS rooms socket ⟨.leaveRoom, some R, d, some U⟩ =
        (rooms,
          (room.filter fun q => openS q.2.socket).map
            fun q => (q.2.socket, OutMsg.userLeft U room.length))) ∧
    ((∀ p ∈ rooms, ∀ q ∈ p.2, q.2.socket ≠ socket) →
      handleDisconnection openS rooms socket = (rooms, [])) := by
  have hfR : falsyStr (some R) = false := by simp [falsyStr, hR]
  have hfU : falsyStr (some U) = false := by simp [falsyStr, hU]
  refine ⟨?_, ?_, ?_⟩
  · intro hg
    unfold handleLeaveRoom removeUserFromRoom
    simp [hfR, hfU, hg]
  · intro room hg hmem hne
    have hq1 : ∀ q ∈ room, q.1 ≠ U := by
      intro q hq hq1
      exact hmem (hq1 ▸ List.mem_map_of_mem Prod.fst hq)
    have hdel : mapDelete room U = room := mapDelete_of_not_mem_keys hmem
    have hset : mapSet rooms R room = rooms := mapSet_of_get_some hg
    have hlen : (room.length == 0) = false := by
      simp [List.length_eq_zero]
      exact hne
    unfold handleLeaveRoom removeUserFromRoom broadcastToRoom
    simp only [hfR, hfU, Bool.false_eq_true, if_false, Option.getD_some, hg,
      hdel, hset, hlen]
    congr 1
    rw [List.filter_congr]
    intro q hq
    have := hq1 q hq
    simp [this]
  · intro h
    unfold handleDisconnection
    exact disconnectScan_no_match _ _ _ _ fun p hp =>
      findInRoom_eq_none_iff.mpr fun q hq => h p hp q hq

theorem handleLeaveRoom_removed_witness :
    handleLeaveRoom (fun _ => true) [("r1", [("bob", ⟨"bob", 2, none⟩)])] 7
      ⟨.leaveRoom, some "r1", none, some "alice"⟩ =
      ([("r1", [("bob", ⟨"bob", 2, none⟩)])],
        [(2, OutMsg.userLeft "alice" 1)]) := by
  have h := (handleLeaveRoom_removed (fun _ => true)
      [("r1", [("bob", ⟨"bob", 2, none⟩)])] 7 "r1" "alice" none
      (by decide) (by decide)).2.1
      [("bob", ⟨"bob", 2, none⟩)] (by decide) (by decide) (by decide)
  exact h.trans (by decide)

/-- Unfolding lemma: a broadcast to an existing room is the filtered map
over its participants. -/
theorem broadcastToRoom_eq (openS : Nat → Bool) {rooms : Rooms} {R : String}
    {room : RoomMap} (hg : mapGet rooms R = some room) (msg : OutMsg)
    (excl : List String) :
    broadcastToRoom openS rooms R msg excl =
      (room.filter fun q => !(excl.contains q.1) && openS q.2.socket).map
        fun q => (q.2.socket, msg) := by
  unfold broadcastToRoom
  rw [hg]

/-- C6: a join of user U into room R with k existing members gives U a
`joined-room` reply with count k+1 and exactly the other members' ids, and
sends each of the k existing (open) members `user-joined{U, k+1}`; with
k = 0 the broadcast is empty. -/
theorem handleJoinRoom_join_effect (openS : Nat → Bool) (rooms : Rooms)
    (socket : Nat) (R U : String) (d : Option String) (room0 : RoomMap)
    (hR : R ≠ "") (hU : U ≠ "")
    (hroom : (mapGet rooms R).getD [] = room0)
    (hnot : U ∉ room0.map Prod.fst)
    (hopen : ∀ q ∈ room0, openS q.2.socket = true)
    (hsock : openS socket = true) :
    handleJoinRoom openS rooms socket ⟨.joinRoom, some R, d, some U⟩ =
      (mapSet rooms R (room0 ++ [(U, ⟨U, socket, d⟩)]),
        (room0.map fun q =>
          (q.2.socket, OutMsg.userJoined U (room0.length + 1))) ++
        [(socket,
          OutMsg.joinedRoom R (room0.length + 1) (room0.map Prod.fst))]) := by
  have hf : (falsyStr (some R) || falsyStr (some U)) = false := by
    simp [falsyStr, hR, hU]
  have hnot1 : ∀ q ∈ room0, q.1 ≠ U := fun q hq hq1 =>
    hnot (hq1 ▸ List.mem_map_of_mem Prod.fst hq)
  have hg0 : mapGet room0 U = none := mapGet_eq_none_iff.mpr hnot
  have hset0 : mapSet room0 U ⟨U, socket, d⟩ =
      room0 ++ [(U, ⟨U, socket, d⟩)] := mapSet_of_get_none hg0
  have hfilter : room0.filter
      (fun q => !(([U] : List String).contains q.1) && openS q.2.socket) =
      room0 := by
    rw [List.filter_eq_self]
    intro q hq
    simp [hopen q hq, hnot1 q hq]
  have hkeys : (room0.map Prod.fst).filter (fun id => id != U) =
      room0.map Prod.fst := by
    rw [List.filter_eq_self]
    intro a ha
    obtain ⟨q, hq, rfl⟩ := List.mem_map.mp ha
    simp [hnot1 q hq]
  unfold handleJoinRoom
  simp only [hf, Bool.false_eq_true, if_false, Option.getD_some]
  cases hg : mapGet rooms R with
  | some r =>
    rw [hg] at hroom
    simp only [Option.getD_some] at hroom
    subst hroom
    simp only [mapHas, hg, Option.isSome_some, if_true, Option.getD_some,
      hset0, mapGet_mapSet_self, broadcastToRoom, sendToUser, hsock, if_true]
    have hfilter2 : List.filter
        (fun q => !decide (q.1 = U) && openS q.2.socket) r = r := by
      rw [List.filter_eq_self]
      intro q hq
      simp [hopen q hq, hnot1 q hq]
    simp [List.filter_append, hfilter, hkeys, hnot1, hU, hfilter2]
  | none =>
    rw [hg] at hroom
    simp only [Option.getD_none] at hroom
    subst hroom
    simp only [mapHas, hg, Option.isSome_none, Bool.false_eq_true, if_false,
      mapGet_mapSet_self, Option.getD_some, mapSet_mapSet, broadcastToRoom,
      sendToUser, hsock, if_true]
    simp [mapSet]

theorem handleJoinRoom_join_effect_witness :
    handleJoinRoom (fun _ => true) [("r1", [("alice", ⟨"alice", 1, none⟩)])]
      2 ⟨.joinRoom, some "r1", none, some "bob"⟩ =
      ([("r1", [("alice", ⟨"alice", 1, none⟩), ("bob", ⟨"bob", 2, none⟩)])],
        [(1, OutMsg.userJoined "bob" 2),
         (2, OutMsg.joinedRoom "r1" 2 ["alice"])]) := by
  have h := handleJoinRoom_join_effect (fun _ => true)
    [("r1", [("alice", ⟨"alice", 1, none⟩)])] 2 "r1" "bob" none
    [("alice", ⟨"alice", 1, none⟩)] (by decide) (by decide) (by decide)
    (by decide) (by decide) (by decide)
  exact h.trans (by decide)

/-- C2: in every room table reachable from the empty table by any sequence
of inbound messages and transport closes, a room id is present if and only
if its participant count is at least 1 — each operation that empties a
room deletes it in the same step. -/
theorem room_exists_iff_count_pos {s : Rooms} (h : Reachable s)
    (rid : String) :
    (mapGet s rid).isSome = true ↔ 1 ≤ ((mapGet s rid).getD []).length := by
  cases hg : mapGet s rid with
  | none => simp
  | some room =>
    simp only [Option.isSome_some, Option.getD_some, true_iff]
    have hwf := tableWF_reachable h (rid, room) (mapGet_mem hg)
    exact Nat.one_le_iff_ne_zero.mpr fun h0 =>
      hwf (List.length_eq_zero.mp h0)

theorem room_exists_iff_count_pos_witness :
    ((mapGet (handleMessage (fun _ => true) [] 1
        ⟨.joinRoom, some "r1", none, some "alice"⟩).1 "r1").isSome = true ↔
      1 ≤ ((mapGet (handleMessage (fun _ => true) [] 1
        ⟨.joinRoom, some "r1", none, some "alice"⟩).1 "r1").getD
          []).length) :=
  room_exists_iff_count_pos
    (Reachable.msg (fun _ => true) 1 ⟨.joinRoom, some "r1", none, some "alice"⟩
      Reachable.init) "r1"

/-- C8: when a userId already in a room joins the same room again, the new
entry overwrites the earlier one (last-writer-wins): the room's participant
count is unchanged, the entry now holds the new connection, and the earlier
connection's socket no longer appears anywhere in the table. -/
theorem handleJoinRoom_duplicate (openS : Nat → Bool) (rooms : Rooms)
    (newSock : Nat) (R U : String) (d : Option String) (room : RoomMap)
    (oldP : Participant)
    (hR : R ≠ "") (hU : U ≠ "")
    (hget : mapGet rooms R = some room)
    (hold : mapGet room U = some oldP)
    (hrn : (rooms.map Prod.fst).Nodup)
    (hkn : (room.map Prod.fst).Nodup)
    (honly : socketOnlyIn rooms oldP.socket R U)
    (hne : newSock ≠ oldP.socket) :
    ((mapGet (handleJoinRoom openS rooms newSock
        ⟨.joinRoom, some R, d, some U⟩).1 R).getD []).length = room.length ∧
    mapGet ((mapGet (handleJoinRoom openS rooms newSock
        ⟨.joinRoom, some R, d, some U⟩).1 R).getD []) U =
      some ⟨U, newSock, d⟩ ∧
    ∀ p ∈ (handleJoinRoom openS rooms newSock
        ⟨.joinRoom, some R, d, some U⟩).1, ∀ q ∈ p.2,
      q.2.socket ≠ oldP.socket := by
  have hf : (falsyStr (some R) || falsyStr (some U)) = false := by
    simp [falsyStr, hR, hU]
  have hstate := handleJoinRoom_state openS rooms newSock
    ⟨.joinRoom, some R, d, some U⟩ hf
  rw [show (⟨.joinRoom, some R, d, some U⟩ :
      WebRTCMessage).roomId.getD "" = R from rfl,
    show (⟨.joinRoom, some R, d, some U⟩ :
      WebRTCMessage).userId.getD "" = U from rfl, hget,
    Option.getD_some] at hstate
  rw [hstate, mapGet_mapSet_self, Option.getD_some]
  refine ⟨length_mapSet_of_get_some hold, mapGet_mapSet_self, ?_⟩
  intro p hp q hq hqs
  rcases mem_mapSet_nodup hrn hp with hp1 | hp1
  · subst hp1
    rcases mem_mapSet_nodup hkn hq with hq1 | hq1
    · rw [hq1] at hqs
      exact hne hqs
    · exact hq1.2 (honly (R, room) (mapGet_mem hget) q hq1.1 hqs).2
  · exact hp1.2 (honly p hp1.1 q hq hqs).1

theorem handleJoinRoom_duplicate_witness :
    ((mapGet (handleJoinRoom (fun _ => true)
        [("r1", [("alice", ⟨"alice", 1, none⟩), ("bob", ⟨"bob", 2, none⟩)])]
        5 ⟨.joinRoom, some "r1", none, some "alice"⟩).1 "r1").getD
          []).length = 2 ∧
    mapGet ((mapGet (handleJoinRoom (fun _ => true)
        [("r1", [("alice", ⟨"alice", 1, none⟩), ("bob", ⟨"bob", 2, none⟩)])]
        5 ⟨.joinRoom, some "r1", none, some "alice"⟩).1 "r1").getD [])
      "alice" = some ⟨"alice", 5, none⟩ ∧
    ∀ p ∈ (handleJoinRoom (fun _ => true)
        [("r1", [("alice", ⟨"alice", 1, none⟩), ("bob", ⟨"bob", 2, none⟩)])]
        5 ⟨.joinRoom, some "r1", none, some "alice"⟩).1, ∀ q ∈ p.2,
      q.2.socket ≠ 1 := by
  exact handleJoinRoom_duplicate (fun _ => true)
    [("r1", [("alice", ⟨"alice", 1, none⟩), ("bob", ⟨"bob", 2, none⟩)])]
    5 "r1" "alice" none
    [("alice", ⟨"alice", 1, none⟩), ("bob", ⟨"bob", 2, none⟩)]
    ⟨"alice", 1, none⟩ (by decide) (by decide) (by decide) (by decide)
    (by decide) (by decide) (by decide) (by decide)

/-- C10 counterexample: room "r1" holds one participant with userId "" on
the open socket 5; an offer from the non-member socket 9 yields the
reverse-lookup sentinel "", whose exclusion list matches that participant:
no send is produced, contradicting the claim that the message reaches
every member including those whose userId is the empty string. -/
theorem offer_nonmember_counterexample :
    getUserIdBySocket [("r1", [("", ⟨"", 5, none⟩)])] 9 = "" ∧
    (handleOffer (fun _ => true) [("r1", [("", ⟨"", 5, none⟩)])] 9
      ⟨.offer, some "r1", some "sdp", none⟩).2 = [] := by decide

/-- C10 amended: for an offer, answer, or ice-candidate envelope naming an
existing room and arriving from a connection that is in no room, the
sender's reverse lookup yields the empty string and the message is
broadcast to every open member of the named room except any participant
whose userId is the empty string — the sentinel exclusion list matches
exactly those members. -/
theorem relay_nonmember (openS : Nat → Bool) (rooms : Rooms)
    (sock : Nat) (R : String) (d : Option String) (room : RoomMap)
    (hR : R ≠ "") (hget : mapGet rooms R = some room)
    (hnm : ∀ p ∈ rooms, ∀ q ∈ p.2, q.2.socket ≠ sock) :
    getUserIdBySocket rooms sock = "" ∧
    handleOffer openS rooms sock ⟨.offer, some R, d, none⟩ =
      (rooms,
        (room.filter fun q => q.1 != "" && openS q.2.socket).map
          fun q => (q.2.socket, OutMsg.offer d)) ∧
    handleAnswer openS rooms sock ⟨.answer, some R, d, none⟩ =
      (rooms,
        (room.filter fun q => q.1 != "" && openS q.2.socket).map
          fun q => (q.2.socket, OutMsg.answer d)) ∧
    handleIceCandidate openS rooms sock ⟨.iceCandidate, some R, d, none⟩ =
      (rooms,
        (room.filter fun q => q.1 != "" && openS q.2.socket).map
          fun q => (q.2.socket, OutMsg.iceCandidate d)) := by
  have huid : getUserIdBySocket rooms sock = "" :=
    getUserIdBySocket_eq_empty hnm
  have hf : falsyStr (some R) = false := by simp [falsyStr, hR]
  have hb : ∀ msg : OutMsg, broadcastToRoom openS rooms R msg [""] =
      (room.filter fun q => q.1 != "" && openS q.2.socket).map
        fun q => (q.2.socket, msg) := by
    intro msg
    rw [broadcastToRoom_eq openS hget]
    congr 1
    apply List.filter_congr
    intro q hq
    by_cases h : q.1 = ""
    · simp [h]
    · simp [h]
  refine ⟨huid, ?_, ?_, ?_⟩
  · unfold handleOffer
    simp only [hf, Bool.false_eq_true, if_false, Option.getD_some, huid]
    rw [hb]
  · unfold handleAnswer
    simp only [hf, Bool.false_eq_true, if_false, Option.getD_some, huid]
    rw [hb]
  · unfold handleIceCandidate
    simp only [hf, Bool.false_eq_true, if_false, Option.getD_some, huid]
    rw [hb]

theorem relay_nonmember_witness :
    getUserIdBySocket [("r1", [("bob", ⟨"bob", 2, none⟩)])] 9 = "" ∧
    handleOffer (fun _ => true) [("r1", [("bob", ⟨"bob", 2, none⟩)])] 9
      ⟨.offer, some "r1", some "sdp", none⟩ =
      ([("r1", [("bob", ⟨"bob", 2, none⟩)])],
        [(2, OutMsg.offer (some "sdp"))]) ∧
    handleAnswer (fun _ => true) [("r1", [("bob", ⟨"bob", 2, none⟩)])] 9
      ⟨.answer, some "r1", some "sdp", none⟩ =
      ([("r1", [("bob", ⟨"bob", 2, none⟩)])],
        [(2, OutMsg.answer (some "sdp"))]) ∧
    handleIceCandidate (fun _ => true)
      [("r1", [("bob", ⟨"bob", 2, none⟩)])] 9
      ⟨.iceCandidate, some "r1", some "sdp", none⟩ =
      ([("r1", [("bob", ⟨"bob", 2, none⟩)])],
        [(2, OutMsg.iceCandidate (some "sdp"))]) := by
  have h := relay_nonmember (fun _ => true)
    [("r1", [("bob", ⟨"bob", 2, none⟩)])] 9 "r1" (some "sdp")
    [("bob", ⟨"bob", 2, none⟩)] (by decide) (by decide) (by decide)
  exact ⟨h.1, h.2.1.trans (by decide), h.2.2.1.trans (by decide),
    h.2.2.2.trans (by decide)⟩

/-- C3: for a participant U in room R whose socket occurs nowhere else in
the table, processing U's explicit leave-room message and processing the
close of U's transport produce identical output: both equal the one shared
`removeUserFromRoom` call; its broadcast is `user-left{U, N}` to every
remaining open member, where N is the remaining member count; and room R
is deleted from the table exactly when N = 0. -/
theorem leave_equals_disconnect (openS : Nat → Bool) (rooms : Rooms)
    (sock : Nat) (R U : String) (d : Option String) (room : RoomMap)
    (part : Participant)
    (hR : R ≠ "") (hU : U ≠ "")
    (hrn : (rooms.map Prod.fst).Nodup)
    (hkn : (room.map Prod.fst).Nodup)
    (hget : mapGet rooms R = some room)
    (hmem : mapGet room U = some part) (hps : part.socket = sock)
    (honly : socketOnlyIn rooms sock R U) :
    handleLeaveRoom openS rooms sock ⟨.leaveRoom, some R, d, some U⟩ =
      removeUserFromRoom openS rooms (some R) U sock ∧
    handleDisconnection openS rooms sock =
      removeUserFromRoom openS rooms (some R) U sock ∧
    (removeUserFromRoom openS rooms (some R) U sock).2 =
      ((mapDelete room U).filter fun q => openS q.2.socket).map
        (fun q =>
          (q.2.socket, OutMsg.userLeft U (mapDelete room U).length)) ∧
    (mapGet (removeUserFromRoom openS rooms (some R) U sock).1 R = none ↔
      mapDelete room U = []) := by
  have hall : ∀ q ∈ room, q.2.socket = sock → q.1 = U := fun q hq hqs =>
    (honly (R, room) (mapGet_mem hget) q hq hqs).2
  have hfound : findInRoom room sock = some U :=
    findInRoom_eq_some hall ⟨part, mapGet_mem hmem, hps⟩
  have hfR : falsyStr (some R) = false := by simp [falsyStr, hR]
  have hfU : falsyStr (some U) = false := by simp [falsyStr, hU]
  obtain ⟨pre, post, hsplit, hpre⟩ := mapGet_split hget
  have hmempre : ∀ p ∈ pre, p ∈ rooms := fun p hp => by
    rw [hsplit]; exact List.mem_append_left _ hp
  have hmempost : ∀ p ∈ post, p ∈ rooms := fun p hp => by
    rw [hsplit]; exact List.mem_append_right _ (List.mem_cons_of_mem _ hp)
  have hRpost : ∀ p ∈ post, p.1 ≠ R := by
    have h2 := hrn
    rw [hsplit] at h2
    simp only [List.map_append, List.map_cons] at h2
    have h3 := (List.nodup_append.mp h2).2.1
    rw [List.nodup_cons] at h3
    intro p hp hpR
    exact h3.1 (hpR ▸ List.mem_map_of_mem Prod.fst hp)
  have hnone_of : ∀ p, p ∈ rooms → p.1 ≠ R → findInRoom p.2 sock = none := by
    intro p hp hpR
    rw [findInRoom_eq_none_iff]
    intro q hq hqs
    exact hpR (honly p hp q hq hqs).1
  have hleave : handleLeaveRoom openS rooms sock
      ⟨.leaveRoom, some R, d, some U⟩ =
      removeUserFromRoom openS rooms (some R) U sock := by
    unfold handleLeaveRoom
    simp [hfU]
  have hdisc : handleDisconnection openS rooms sock =
      removeUserFromRoom openS rooms (some R) U sock := by
    unfold handleDisconnection
    conv_lhs => rw [hsplit]
    rw [disconnectScan_skip _ _ _ _ _
      (fun p hp => hnone_of p (hmempre p hp) (hpre p hp))]
    simp only [disconnectScan, hfound]
    rw [disconnectScan_no_match _ _ _ _
      (fun p hp => hnone_of p (hmempost p hp) (hRpost p hp))]
    simp [← hsplit]
  have hq1 : ∀ q ∈ mapDelete room U, q.1 ≠ U := by
    intro q hq hq1
    exact not_mem_keys_mapDelete hkn
      (hq1 ▸ List.mem_map_of_mem Prod.fst hq)
  have hsends : (removeUserFromRoom openS rooms (some R) U sock).2 =
      ((mapDelete room U).filter fun q => openS q.2.socket).map
        (fun q =>
          (q.2.socket, OutMsg.userLeft U (mapDelete room U).length)) := by
    unfold removeUserFromRoom
    simp only [hfR, Bool.false_eq_true, if_false, Option.getD_some, hget]
    rw [broadcastToRoom_eq openS mapGet_mapSet_self]
    congr 1
    apply List.filter_congr
    intro q hq
    simp [hq1 q hq]
  have hstate := removeUserFromRoom_state openS rooms (some R) U sock
  simp only [hfR, Bool.false_eq_true, if_false, Option.getD_some, hget]
    at hstate
  have hdel : mapGet (removeUserFromRoom openS rooms (some R) U sock).1 R =
      none ↔ mapDelete room U = [] := by
    rw [hstate]
    by_cases h0 : mapDelete room U = []
    · simp [h0, mapGet_mapDelete_self_nodup hrn]
    · have hlen : ((mapDelete room U).length == 0) = false := by
        simp [List.length_eq_zero]
        exact h0
      simp [hlen, mapGet_mapSet_self, h0]
  exact ⟨hleave, hdisc, hsends, hdel⟩

theorem leave_equals_disconnect_witness :
    handleLeaveRoom (fun _ => true)
      [("r1", [("alice", ⟨"alice", 1, none⟩), ("bob", ⟨"bob", 2, none⟩)])] 2
      ⟨.leaveRoom, some "r1", none, some "bob"⟩ =
      removeUserFromRoom (fun _ => true)
        [("r1", [("alice", ⟨"alice", 1, none⟩), ("bob", ⟨"bob", 2, none⟩)])]
        (some "r1") "bob" 2 ∧
    handleDisconnection (fun _ => true)
      [("r1", [("alice", ⟨"alice", 1, none⟩), ("bob", ⟨"bob", 2, none⟩)])]
      2 =
      removeUserFromRoom (fun _ => true)
        [("r1", [("alice", ⟨"alice", 1, none⟩), ("bob", ⟨"bob", 2, none⟩)])]
        (some "r1") "bob" 2 ∧
    (removeUserFromRoom (fun _ => true)
        [("r1", [("alice", ⟨"alice", 1, none⟩), ("bob", ⟨"bob", 2, none⟩)])]
        (some "r1") "bob" 2).2 =
      ((mapDelete ([("alice", ⟨"alice", 1, none⟩),
          ("bob", ⟨"bob", 2, none⟩)] : RoomMap)
          "bob").filter fun q => (fun _ => true : Nat → Bool) q.2.socket).map
        (fun q => (q.2.socket, OutMsg.userLeft "bob"
          (mapDelete ([("alice", ⟨"alice", 1, none⟩),
            ("bob", ⟨"bob", 2, none⟩)] : RoomMap)
            "bob").length)) ∧
    (mapGet (removeUserFromRoom (fun _ => true)
        [("r1", [("alice", ⟨"alice", 1, none⟩), ("bob", ⟨"bob", 2, none⟩)])]
        (some "r1") "bob" 2).1 "r1" = none ↔
      mapDelete ([("alice", ⟨"alice", 1, none⟩),
        ("bob", ⟨"bob", 2, none⟩)] : RoomMap)
        "bob" = []) :=
  leave_equals_disconnect (fun _ => true)
    [("r1", [("alice", ⟨"alice", 1, none⟩), ("bob", ⟨"bob", 2, none⟩)])]
    2 "r1" "bob" none
    [("alice", ⟨"alice", 1, none⟩), ("bob", ⟨"bob", 2, none⟩)]
    ⟨"bob", 2, none⟩ (by decide) (by decide) (by decide) (by decide)
    (by decide) (by decide) (by decide) (by decide)

end SyncLater
